import Mathlib

set_option maxHeartbeats 1000000

/-- Left brace character, written via its code point. -/
def lbrace : Char := Char.ofNat 123

/-- Right brace character, written via its code point. -/
def rbrace : Char := Char.ofNat 125

/-- Embeds Python str.strip(): drop leading and trailing whitespace. -/
def pyStrip (s : List Char) : List Char :=
  ((s.dropWhile Char.isWhitespace).reverse.dropWhile Char.isWhitespace).reverse

/-- Split a character list at the first occurrence of the character c, returning
the part before c and the part after c; none when c does not occur. -/
def splitAtChar (c : Char) : List Char → Option (List Char × List Char)
  | [] => none
  | x :: xs =>
    if x = c then some ([], xs)
    else
      match splitAtChar c xs with
      | none => none
      | some (a, b) => some (x :: a, b)

/-- Fuel-indexed scanner embedding the regex pass of
VoiceCloner._parse_style_segments in app.py, namely
re.findall of the lazy pattern lbrace (group) rbrace (group) with a
lookahead stopping the second group at the next lbrace or end of input,
under re.DOTALL.  A match starts at an lbrace that is followed by some
rbrace; the first group is everything up to the first rbrace; the second
group extends to the next lbrace (or end); scanning resumes there. -/
def findMatchesAux : Nat → List Char → List (List Char × List Char)
  | _, [] => []
  | 0, _ :: _ => []
  | fuel + 1, c :: cs =>
    if c = lbrace then
      match splitAtChar rbrace cs with
      | none => []
      | some (style, rest) =>
        (style, rest.takeWhile (fun x => x != lbrace)) ::
          findMatchesAux fuel (rest.dropWhile (fun x => x != lbrace))
    else
      findMatchesAux fuel cs

/-- The full regex scan, with fuel fixed to the input length (always enough,
since every recursive step strictly shortens the input). -/
def findMatches (cs : List Char) : List (List Char × List Char) :=
  findMatchesAux cs.length cs

/-- Decides whether the text contains a style marker: an lbrace with an
rbrace somewhere after it, which is exactly when the regex of
VoiceCloner._parse_style_segments finds at least one match. -/
def hasMarker : List Char → Bool
  | [] => false
  | c :: cs => if c = lbrace then cs.contains rbrace else hasMarker cs

/-- The marker-derived segment list of VoiceCloner._parse_style_segments:
the regex matches of text + lbrace sentinel (the source appends one lbrace
before matching), each stripped, with empty-content matches dropped. -/
def segsOf (text : List Char) : List (List Char × List Char) :=
  (findMatches (text ++ [lbrace])).filterMap fun sc =>
    let style := pyStrip sc.1
    let content := pyStrip sc.2
    if content = [] then none else some (style, content)

/-- Embeds VoiceCloner._parse_style_segments from app.py: the stripped,
filtered regex matches; when none survive and the stripped text is nonempty,
a single default segment holding the whole stripped text. -/
def parse_style_segments (text : List Char) : List (List Char × List Char) :=
  match segsOf text with
  | [] => if pyStrip text = [] then [] else [("default".data, pyStrip text)]
  | segments => segments

/-- Python dict lookup on an insertion-ordered association list: the value at
the first entry with the given key. -/
def alookup {α β : Type} [DecidableEq α] (l : List (α × β)) (k : α) : Option β :=
  match l with
  | [] => none
  | (k', v) :: t => if k' = k then some v else alookup t k

/-- Python dict assignment on an insertion-ordered association list: replace
the value in place when the key is present, otherwise append the new entry. -/
def aset {α β : Type} [DecidableEq α] (l : List (α × β)) (k : α) (v : β) :
    List (α × β) :=
  match l with
  | [] => [(k, v)]
  | (k', v') :: t => if k' = k then (k, v) :: t else (k', v') :: aset t k v

/-- Path concatenation with a slash, embedding pathlib's slash operator. -/
def pathJoin (a b : List Char) : List Char := a ++ '/' :: b

/-- Embeds name.replace of a space by an underscore, used for derived
sample and output filenames. -/
def replaceSpaces (s : List Char) : List Char :=
  s.map fun c => if c = ' ' then '_' else c

/-- Embeds os.path.splitext applied to a slash-separated path, returning only
the extension part: the segment from the last dot of the basename on, unless
every character of the basename before that dot is itself a dot. -/
def splitextExt (p : List Char) : List Char :=
  let base := (p.reverse.takeWhile (fun c => c != '/')).reverse
  let tailRev := base.reverse.takeWhile (fun c => c != '.')
  if tailRev.length = base.length then []
  else if (base.take (base.length - tailRev.length - 1)).all (fun c => c == '.') then []
  else '.' :: tailRev.reverse

/-- A stored voice sample record of the manifest schema. -/
structure Sample where
  path : List Char
  transcription : List Char
  added_at : List Char
deriving DecidableEq

/-- A style record of the manifest schema: a back-reference to a sample name. -/
structure Style where
  sample : List Char
  added_at : List Char
deriving DecidableEq

/-- A saved output record of the manifest schema. -/
structure Output where
  path : List Char
  text : List Char
  style : List Char
  created_at : List Char
deriving DecidableEq

/-- A profile manifest as stored in profile.json.  The outputs key may be
absent (none), matching manifests written by create_profile. -/
structure Profile where
  name : List Char
  description : List Char
  created_at : List Char
  samples : List (List Char × Sample)
  styles : List (List Char × Style)
  outputs : Option (List (List Char × Output))
deriving DecidableEq

/-- Contents of a file written by the profile manager: either a serialized
manifest (json.dump of the profile data) or an audio buffer with its sample
rate (torchaudio.save or soundfile.write). -/
inductive FileData where
  | manifest (profile : Profile)
  | audio (wave : List Int) (sr : Nat)
deriving DecidableEq

/-- The filesystem as the profile manager observes it: the set of created
directories and a path-keyed map of written files. -/
structure FS where
  dirs : List (List Char)
  files : List (List Char × FileData)
deriving DecidableEq

/-- mkdir with exist_ok: record the directory when it is new. -/
def FS.mkdir (fs : FS) (p : List Char) : FS :=
  if p ∈ fs.dirs then fs else { fs with dirs := fs.dirs ++ [p] }

/-- Overwrite the file at a path with the given contents. -/
def FS.write (fs : FS) (p : List Char) (d : FileData) : FS :=
  { fs with files := aset fs.files p d }

/-- Read the file at a path. -/
def FS.read (fs : FS) (p : List Char) : Option FileData :=
  alookup fs.files p

/-- State of a VoiceProfileManager from voice_profile_manager.py: the profiles
root, the currently selected profile, the in-memory name-to-profile map, and
the filesystem it mutates. -/
structure Manager where
  profiles_dir : List Char
  current_profile : Option (List Char)
  profiles : List (List Char × Profile)
  fs : FS
deriving DecidableEq

/-- Return values of the VoiceProfileManager operations.  The source returns
formatted message strings; each constructor stands for one of its distinct
f-string templates, carrying the interpolated parts.  savedPath carries the
path string save_output returns on success. -/
inductive StoreResult where
  | profileExists (name : List Char)
  | profileCreated (name : List Char)
  | profileNotFound (name : List Char)
  | sampleAdded (sample profile : List Char)
  | sampleNotFound (sample profile : List Char)
  | styleAdded (style profile : List Char)
  | savedPath (path : List Char)
deriving DecidableEq

/-- Path of a profile's manifest file, profiles_dir/name/profile.json. -/
def manifestPath (profiles_dir name : List Char) : List Char :=
  pathJoin (pathJoin profiles_dir name) "profile.json".data

/-- Path save_output derives for the audio file: the output name with spaces
replaced, an underscore, the filename timestamp, and the wav extension,
inside the profile's outputs directory. -/
def outputFilePath (profiles_dir name oname tf : List Char) : List Char :=
  pathJoin (pathJoin (pathJoin profiles_dir name) "outputs".data)
    (replaceSpaces oname ++ '_' :: (tf ++ ".wav".data))

/-- Embeds VoiceProfileManager.create_profile.  The timestamp produced by
time.strftime is passed in as now. -/
def create_profile (st : Manager) (name description now : List Char) :
    Manager × StoreResult :=
  if (alookup st.profiles name).isSome then
    (st, .profileExists name)
  else
    let profile_dir := pathJoin st.profiles_dir name
    let fs := st.fs.mkdir profile_dir
    let fs := fs.mkdir (pathJoin profile_dir "samples".data)
    let fs := fs.mkdir (pathJoin profile_dir "outputs".data)
    let profile_data : Profile :=
      { name := name, description := description, created_at := now,
        samples := [], styles := [], outputs := none }
    let fs := fs.write (manifestPath st.profiles_dir name) (.manifest profile_data)
    ({ st with fs := fs,
               profiles := aset st.profiles name profile_data,
               current_profile := some name },
     .profileCreated name)

/-- Embeds VoiceProfileManager.add_sample.  The source re-encodes the audio at
audio_path via torchaudio load and save; the loaded buffer and rate are passed
in as wave and sr, and the strftime timestamp as now. -/
def add_sample (st : Manager) (profile_name sample_name audio_path transcription : List Char)
    (wave : List Int) (sr : Nat) (now : List Char) : Manager × StoreResult :=
  match alookup st.profiles profile_name with
  | none => (st, .profileNotFound profile_name)
  | some prof =>
    let profile_dir := pathJoin st.profiles_dir profile_name
    let samples_dir := pathJoin profile_dir "samples".data
    let ext := splitextExt audio_path
    let sample_filename := replaceSpaces sample_name ++ ext
    let sample_path := pathJoin samples_dir sample_filename
    let fs := st.fs.write sample_path (.audio wave sr)
    let entry : Sample :=
      { path := sample_path, transcription := transcription, added_at := now }
    let prof := { prof with samples := aset prof.samples sample_name entry }
    let fs := fs.write (manifestPath st.profiles_dir profile_name) (.manifest prof)
    ({ st with fs := fs, profiles := aset st.profiles profile_name prof },
     .sampleAdded sample_name profile_name)

/-- Embeds VoiceProfileManager.add_style. -/
def add_style (st : Manager) (profile_name style_name sample_name now : List Char) :
    Manager × StoreResult :=
  match alookup st.profiles profile_name with
  | none => (st, .profileNotFound profile_name)
  | some prof =>
    if (alookup prof.samples sample_name).isNone then
      (st, .sampleNotFound sample_name profile_name)
    else
      let entry : Style := { sample := sample_name, added_at := now }
      let prof := { prof with styles := aset prof.styles style_name entry }
      let fs := st.fs.write (manifestPath st.profiles_dir profile_name) (.manifest prof)
      ({ st with fs := fs, profiles := aset st.profiles profile_name prof },
       .styleAdded style_name profile_name)

/-- Embeds VoiceProfileManager.get_sample_path. -/
def get_sample_path (st : Manager) (profile_name sample_name : List Char) :
    Option (List Char) :=
  match alookup st.profiles profile_name with
  | some prof =>
    match alookup prof.samples sample_name with
    | some s => some s.path
    | none => none
  | none => none

/-- Embeds VoiceProfileManager.get_transcription; the empty list stands for
the empty string it returns on a missing key. -/
def get_transcription (st : Manager) (profile_name sample_name : List Char) :
    List Char :=
  match alookup st.profiles profile_name with
  | some prof =>
    match alookup prof.samples sample_name with
    | some s => s.transcription
    | none => []
  | none => []

/-- Embeds VoiceProfileManager.get_style_sample. -/
def get_style_sample (st : Manager) (profile_name style_name : List Char) :
    Option (List Char) :=
  match alookup st.profiles profile_name with
  | some prof =>
    match alookup prof.styles style_name with
    | some s => some s.sample
    | none => none
  | none => none

/-- Embeds VoiceProfileManager.list_profiles. -/
def list_profiles (st : Manager) : List (List Char) :=
  st.profiles.map Prod.fst

/-- Embeds VoiceProfileManager.list_samples. -/
def list_samples (st : Manager) (profile_name : List Char) : List (List Char) :=
  match alookup st.profiles profile_name with
  | some prof => prof.samples.map Prod.fst
  | none => []

/-- Embeds VoiceProfileManager.list_styles. -/
def list_styles (st : Manager) (profile_name : List Char) : List (List Char) :=
  match alookup st.profiles profile_name with
  | some prof => prof.styles.map Prod.fst
  | none => []

/-- The outputs dict of a manifest, treating an absent outputs key as the
empty dict, as save_output does before registering an entry. -/
def outputsDict (prof : Profile) : List (List Char × Output) :=
  match prof.outputs with
  | none => []
  | some o => o

/-- The profile save_output persists: the outputs dict gains or overwrites
the entry at output_name with the new path, text, style and timestamp. -/
def withOutput (prof : Profile) (output_name path text style ts_meta : List Char) :
    Profile :=
  { prof with outputs := some (aset (outputsDict prof) output_name
      { path := path, text := text, style := style, created_at := ts_meta }) }

/-- Embeds VoiceProfileManager.save_output.  The two strftime calls of the
source (the filename timestamp and the metadata timestamp) are passed in as
ts_file and ts_meta. -/
def save_output (st : Manager) (profile_name output_name : List Char)
    (audio_data : List Int) (sr : Nat) (text style : List Char)
    (ts_file ts_meta : List Char) : Manager × StoreResult :=
  match alookup st.profiles profile_name with
  | none => (st, .profileNotFound profile_name)
  | some prof =>
    let output_path := outputFilePath st.profiles_dir profile_name output_name ts_file
    let fs := st.fs.write output_path (.audio audio_data sr)
    let prof := withOutput prof output_name output_path text style ts_meta
    let fs := fs.write (manifestPath st.profiles_dir profile_name) (.manifest prof)
    ({ st with fs := fs, profiles := aset st.profiles profile_name prof },
     .savedPath output_path)

/-- Referential integrity of one profile: every style entry names a sample
that is a key of the same profile's samples map. -/
def stylesOK (p : Profile) : Bool :=
  p.styles.all fun e => (alookup p.samples e.2.sample).isSome

/-- Referential integrity of the whole store. -/
def storeInv (st : Manager) : Bool :=
  st.profiles.all fun e => stylesOK e.2

/-- Reference audio information a style resolves to: the keys of the
sample-info dicts built by the app layer. -/
structure SampleInfo where
  path : List Char
  transcription : List Char
deriving DecidableEq

/-- A style-to-sample-info map as passed to generate_multi_style_speech. -/
abbrev StyleMap := List (List Char × SampleInfo)

/-- Style resolution of VoiceCloner.generate_multi_style_speech: replace a
style that is not a key of the map by the default key, then look the result
up; none means the loop skips the segment. -/
def resolveStyle (m : StyleMap) (style : List Char) : Option SampleInfo :=
  let style := if alookup m style = none then "default".data else style
  alookup m style

/-- The per-segment loop of VoiceCloner.generate_multi_style_speech: gen
accumulates the generated buffers and r holds the sample rate of the last
inference, none while no segment has been synthesized yet.  infer stands for
the external engine (preprocess_ref_audio_text plus infer_process) and trimFn
for the silence-removal round trip applied when remove_silence is set. -/
def genLoop (infer : SampleInfo → List Char → List Int × Nat)
    (trimFn : List Int → List Int) (remove_silence : Bool) (m : StyleMap) :
    List (List Char × List Char) → List (List Int) → Option Nat →
    List (List Int) × Option Nat
  | [], gen, r => (gen, r)
  | seg :: rest, gen, r =>
    match resolveStyle m seg.1 with
    | none => genLoop infer trimFn remove_silence m rest gen r
    | some si =>
      let p := infer si seg.2
      let w := if remove_silence then trimFn p.1 else p.1
      genLoop infer trimFn remove_silence m rest (gen ++ [w]) (some p.2)

/-- Embeds VoiceCloner.generate_multi_style_speech: parse the annotated text,
run the loop, and concatenate; none stands for the (None, None) sentinel
returned when no segment produced audio. -/
def generate_multi_style_speech (infer : SampleInfo → List Char → List Int × Nat)
    (trimFn : List Int → List Int) (text_with_styles : List Char)
    (style_to_sample_map : StyleMap) (remove_silence : Bool) :
    Option (Nat × List Int) :=
  let segments := parse_style_segments text_with_styles
  match genLoop infer trimFn remove_silence style_to_sample_map segments [] none with
  | ([], _) => none
  | (_ :: _, none) => none
  | (gen, some rate) => some (rate, gen.flatten)

/-- The segments of the loop that are actually synthesized, paired with their
resolved sample info, in segment order. -/
def resolvedSegs (m : StyleMap) (segs : List (List Char × List Char)) :
    List (SampleInfo × List Char) :=
  segs.filterMap fun seg => (resolveStyle m seg.1).map fun si => (si, seg.2)

/-- The buffer one resolved segment contributes, after optional silence
removal. -/
def waveOf (infer : SampleInfo → List Char → List Int × Nat)
    (trimFn : List Int → List Int) (remove_silence : Bool)
    (x : SampleInfo × List Char) : List Int :=
  let p := infer x.1 x.2
  if remove_silence then trimFn p.1 else p.1

/-- Rendering of a segment list back into annotated text: each pair becomes
its marker followed by its content.  Used to state what the scanner returns
on well-formed marker text. -/
def renderSegs : List (List Char × List Char) → List Char
  | [] => []
  | sc :: rest => lbrace :: ((sc.1 ++ rbrace :: sc.2) ++ renderSegs rest)

/-- The outputs dict the store records for a profile name, empty when the
profile or its outputs key is absent. -/
def outputsOf (st : Manager) (pn : List Char) : List (List Char × Output) :=
  match alookup st.profiles pn with
  | some p => outputsDict p
  | none => []

/-- A sample fixture used to instantiate the store theorems. -/
def demoSample : Sample :=
  { path := "voice_profiles/p/samples/s.wav".data,
    transcription := "hi there".data, added_at := "t0".data }

/-- A profile fixture holding one sample and no styles or outputs. -/
def demoProfile : Profile :=
  { name := "p".data, description := "d".data, created_at := "t0".data,
    samples := [("s".data, demoSample)], styles := [], outputs := none }

/-- A store fixture holding the one profile fixture. -/
def demoManager : Manager :=
  { profiles_dir := "voice_profiles".data, current_profile := none,
    profiles := [("p".data, demoProfile)], fs := { dirs := [], files := [] } }

theorem splitAtChar_eq_none {c : Char} :
    ∀ {l : List Char}, (∀ x ∈ l, x ≠ c) → splitAtChar c l = none := by
  intro l
  induction l with
  | nil => intro _; rfl
  | cons x xs ih =>
    intro h
    have hx : x ≠ c := h x (by simp)
    simp only [splitAtChar, if_neg hx]
    rw [ih fun y hy => h y (by simp [hy])]

theorem splitAtChar_eq_some {c : Char} :
    ∀ (a b : List Char), (∀ x ∈ a, x ≠ c) →
      splitAtChar c (a ++ c :: b) = some (a, b) := by
  intro a
  induction a with
  | nil => intro b _; simp [splitAtChar]
  | cons x xs ih =>
    intro b h
    have hx : x ≠ c := h x (by simp)
    simp only [List.cons_append, splitAtChar, if_neg hx, List.append_eq]
    rw [ih b fun y hy => h y (by simp [hy])]

theorem splitAtChar_some_eq {c : Char} :
    ∀ {l a b : List Char}, splitAtChar c l = some (a, b) →
      l = a ++ c :: b ∧ ∀ x ∈ a, x ≠ c := by
  intro l
  induction l with
  | nil => intro a b h; simp [splitAtChar] at h
  | cons x xs ih =>
    intro a b h
    simp only [splitAtChar] at h
    by_cases hx : x = c
    · rw [if_pos hx] at h
      obtain ⟨ha, hb⟩ := Prod.mk.injEq .. ▸ Option.some.inj h
      subst hx; subst ha; subst hb
      exact ⟨by simp, by simp⟩
    · rw [if_neg hx] at h
      cases hs : splitAtChar c xs with
      | none => rw [hs] at h; simp at h
      | some p =>
        obtain ⟨p1, p2⟩ := p
        rw [hs] at h
        obtain ⟨ha, hb⟩ := Prod.mk.injEq .. ▸ Option.some.inj h
        subst ha; subst hb
        obtain ⟨hl, hna⟩ := ih hs
        refine ⟨by simp [hl], ?_⟩
        intro y hy
        rcases List.mem_cons.mp hy with hy | hy
        · exact hy ▸ hx
        · exact hna y hy

theorem takeWhile_until_lbrace :
    ∀ (w t : List Char), lbrace ∉ w →
      (w ++ lbrace :: t).takeWhile (fun x => x != lbrace) = w := by
  intro w
  induction w with
  | nil => intro t _; simp [List.takeWhile]
  | cons x xs ih =>
    intro t h
    have hx : x ≠ lbrace := fun he => h (by simp [he])
    simp only [List.cons_append, List.takeWhile, List.append_eq]
    rw [show (x != lbrace) = true by simp [hx]]
    rw [ih t fun hm => h (by simp [hm])]

theorem dropWhile_until_lbrace :
    ∀ (w t : List Char), lbrace ∉ w →
      (w ++ lbrace :: t).dropWhile (fun x => x != lbrace) = lbrace :: t := by
  intro w
  induction w with
  | nil => intro t _; simp [List.dropWhile]
  | cons x xs ih =>
    intro t h
    have hx : x ≠ lbrace := fun he => h (by simp [he])
    simp only [List.cons_append, List.dropWhile, List.append_eq]
    rw [show (x != lbrace) = true by simp [hx]]
    exact ih t fun hm => h (by simp [hm])

theorem dropWhile_length_le (p : Char → Bool) :
    ∀ l : List Char, (l.dropWhile p).length ≤ l.length := by
  intro l
  induction l with
  | nil => simp [List.dropWhile]
  | cons a t ih =>
    simp only [List.dropWhile]
    split
    · exact Nat.le_trans ih (Nat.le_succ _)
    · simp

theorem findMatchesAux_irrel :
    ∀ (n : Nat) (cs : List Char), cs.length ≤ n →
      ∀ (f1 f2 : Nat), cs.length ≤ f1 → cs.length ≤ f2 →
        findMatchesAux f1 cs = findMatchesAux f2 cs := by
  intro n
  induction n with
  | zero =>
    intro cs hcs f1 f2 _ _
    have hnil : cs = [] := List.length_eq_zero.mp (Nat.le_zero.mp hcs)
    subst hnil
    cases f1 <;> cases f2 <;> rfl
  | succ n ih =>
    intro cs hcs f1 f2 h1 h2
    cases cs with
    | nil => cases f1 <;> cases f2 <;> rfl
    | cons c cs =>
      have hcs' : cs.length ≤ n := by
        simpa [Nat.succ_le_succ_iff] using hcs
      cases f1 with
      | zero => simp at h1
      | succ g1 =>
        cases f2 with
        | zero => simp at h2
        | succ g2 =>
          have hg1 : cs.length ≤ g1 := by simpa [Nat.succ_le_succ_iff] using h1
          have hg2 : cs.length ≤ g2 := by simpa [Nat.succ_le_succ_iff] using h2
          simp only [findMatchesAux]
          by_cases hc : c = lbrace
          · rw [if_pos hc, if_pos hc]
            cases hs : splitAtChar rbrace cs with
            | none => rfl
            | some p =>
              obtain ⟨style, rest⟩ := p
              have hrest : rest.length < cs.length := by
                have hl := (splitAtChar_some_eq hs).1
                rw [hl]
                simp only [List.length_append, List.length_cons]
                omega
              have hdrop : (rest.dropWhile (fun x => x != lbrace)).length ≤ rest.length :=
                dropWhile_length_le _ rest
              have hdn : (rest.dropWhile (fun x => x != lbrace)).length ≤ n := by omega
              have e := ih (rest.dropWhile (fun x => x != lbrace)) hdn g1 g2
                (by omega) (by omega)
              dsimp only
              rw [e]
          · rw [if_neg hc, if_neg hc]
            exact ih cs hcs' g1 g2 hg1 hg2

theorem findMatchesAux_eq_findMatches {cs : List Char} {f : Nat} (h : cs.length ≤ f) :
    findMatchesAux f cs = findMatches cs :=
  findMatchesAux_irrel cs.length cs le_rfl f cs.length h le_rfl

theorem findMatches_cons_of_ne {c : Char} {cs : List Char} (hc : c ≠ lbrace) :
    findMatches (c :: cs) = findMatches cs := by
  show findMatchesAux (c :: cs).length (c :: cs) = findMatches cs
  rw [List.length_cons]
  simp only [findMatchesAux, if_neg hc]
  rfl

theorem findMatches_append_no_lbrace :
    ∀ {pre : List Char} (cs : List Char), lbrace ∉ pre →
      findMatches (pre ++ cs) = findMatches cs := by
  intro pre
  induction pre with
  | nil => intro cs _; rfl
  | cons p ps ih =>
    intro cs h
    have hp : p ≠ lbrace := fun he => h (by simp [he])
    rw [List.cons_append, findMatches_cons_of_ne hp]
    exact ih cs fun hm => h (by simp [hm])

theorem findMatches_lbrace_nil : findMatches [lbrace] = [] := by decide

theorem findMatches_eq_nil_of_no_marker :
    ∀ {cs : List Char}, hasMarker cs = false → findMatches (cs ++ [lbrace]) = [] := by
  intro cs
  induction cs with
  | nil => intro _; exact findMatches_lbrace_nil
  | cons c cs ih =>
    intro h
    by_cases hc : c = lbrace
    · have hcont : cs.contains rbrace = false := by
        simpa [hasMarker, hc] using h
      have hnr : ∀ x ∈ cs ++ [lbrace], x ≠ rbrace := by
        intro x hx he
        rcases List.mem_append.mp hx with hx | hx
        · subst he
          have : cs.contains rbrace = true := by
            simpa using List.elem_iff.mpr hx
          rw [hcont] at this
          exact Bool.false_ne_true this
        · simp at hx
          subst hx
          exact absurd he (by decide)
      show findMatchesAux ((c :: cs) ++ [lbrace]).length ((c :: cs) ++ [lbrace]) = []
      simp only [List.cons_append, List.length_cons, findMatchesAux, if_pos hc,
        List.append_eq]
      rw [splitAtChar_eq_none hnr]
    · have h' : hasMarker cs = false := by simpa [hasMarker, hc] using h
      rw [List.cons_append, findMatches_cons_of_ne hc]
      exact ih h'

theorem pyStrip_of_all_ws {w : List Char} (h : ∀ c ∈ w, c.isWhitespace = true) :
    pyStrip w = [] := by
  unfold pyStrip
  rw [List.dropWhile_eq_nil_iff.mpr h]
  simp [List.dropWhile]

theorem findMatches_marker_step (s w t : List Char) (hs : ∀ x ∈ s, x ≠ rbrace)
    (hw : lbrace ∉ w) :
    findMatches (lbrace :: (s ++ rbrace :: (w ++ lbrace :: t))) =
      (s, w) :: findMatches (lbrace :: t) := by
  show findMatchesAux (lbrace :: (s ++ rbrace :: (w ++ lbrace :: t))).length _ = _
  rw [List.length_cons]
  simp only [findMatchesAux]
  rw [if_pos trivial, splitAtChar_eq_some s (w ++ lbrace :: t) hs]
  dsimp only
  rw [takeWhile_until_lbrace w t hw, dropWhile_until_lbrace w t hw]
  have hlen : (lbrace :: t).length ≤ (s ++ rbrace :: (w ++ lbrace :: t)).length := by
    simp only [List.length_append, List.length_cons]
    omega
  rw [findMatchesAux_eq_findMatches hlen]

theorem findMatches_render :
    ∀ pairs : List (List Char × List Char),
      (∀ sc ∈ pairs, (∀ x ∈ sc.1, x ≠ rbrace) ∧ lbrace ∉ sc.2) →
      findMatches (renderSegs pairs ++ [lbrace]) = pairs := by
  intro pairs
  induction pairs with
  | nil => intro _; exact findMatches_lbrace_nil
  | cons sc rest ih =>
    intro h
    obtain ⟨t', ht'⟩ : ∃ t', renderSegs rest ++ [lbrace] = lbrace :: t' := by
      cases rest with
      | nil => exact ⟨[], rfl⟩
      | cons a b =>
        exact ⟨(a.1 ++ rbrace :: a.2) ++ (renderSegs b ++ [lbrace]), by
          simp [renderSegs]⟩
    have hshape : renderSegs (sc :: rest) ++ [lbrace] =
        lbrace :: (sc.1 ++ rbrace :: (sc.2 ++ lbrace :: t')) := by
      rw [renderSegs, ← ht']
      simp
    rw [hshape]
    have hsc := h sc (by simp)
    rw [findMatches_marker_step sc.1 sc.2 t' hsc.1 hsc.2]
    rw [← ht', ih fun x hx => h x (by simp [hx])]

/-- Proves claim C4: on marker-annotated text the segmenter yields one
segment per marker in textual order, with style name and content both
stripped of surrounding whitespace and whitespace-only contents dropped;
instantiated at the input of the spec example, this gives
parse of a marker A, hello, marker B, world equal to the two segments
(A, hello) and (B, world). -/
theorem claim_C4 : ∀ pairs : List (List Char × List Char),
    (∀ sc ∈ pairs, (∀ x ∈ sc.1, x ≠ rbrace) ∧ lbrace ∉ sc.2) →
    (∃ sc ∈ pairs, pyStrip sc.2 ≠ []) →
    parse_style_segments (renderSegs pairs) =
      pairs.filterMap fun sc =>
        if pyStrip sc.2 = [] then none else some (pyStrip sc.1, pyStrip sc.2) := by
  intro pairs hwf hne
  have hsegs : segsOf (renderSegs pairs) =
      pairs.filterMap fun sc =>
        if pyStrip sc.2 = [] then none else some (pyStrip sc.1, pyStrip sc.2) := by
    unfold segsOf
    rw [findMatches_render pairs hwf]
  have hfne : (pairs.filterMap fun sc =>
      if pyStrip sc.2 = [] then none else some (pyStrip sc.1, pyStrip sc.2)) ≠ [] := by
    intro hnil
    obtain ⟨sc, hmem, hns⟩ := hne
    have := List.filterMap_eq_nil_iff.mp hnil sc hmem
    rw [if_neg hns] at this
    exact Option.some_ne_none _ this
  unfold parse_style_segments
  rw [hsegs]
  cases h : pairs.filterMap fun sc =>
      if pyStrip sc.2 = [] then none else some (pyStrip sc.1, pyStrip sc.2) with
  | nil => exact absurd h hfne
  | cons a b => rfl

/-- The spec example for claim C4, obtained from the general theorem. -/
theorem claim_C4_witness :
    parse_style_segments "\x7bA\x7d hello \x7bB\x7d world".data =
      [("A".data, "hello".data), ("B".data, "world".data)] := by
  have h := claim_C4 [("A".data, " hello ".data), ("B".data, " world".data)]
    (by decide) ⟨("A".data, " hello ".data), by decide, by decide⟩
  have e : "\x7bA\x7d hello \x7bB\x7d world".data =
      renderSegs [("A".data, " hello ".data), ("B".data, " world".data)] := by decide
  rw [e, h]
  decide

/-- Proves claim C6: text with no marker (no left brace followed by a right
brace) parses to a single default segment holding the stripped text, or to
nothing when the text strips to empty. -/
theorem claim_C6 : ∀ text : List Char, hasMarker text = false →
    parse_style_segments text =
      if pyStrip text = [] then [] else [("default".data, pyStrip text)] := by
  intro text h
  unfold parse_style_segments segsOf
  rw [findMatches_eq_nil_of_no_marker h]
  rfl

/-- The spec examples for claim C6: marker-free text becomes one default
segment, and whitespace-only text yields nothing. -/
theorem claim_C6_witness :
    parse_style_segments "no markers here".data =
      [("default".data, "no markers here".data)] ∧
    parse_style_segments "   ".data = [] := by
  constructor
  · have h := claim_C6 "no markers here".data (by decide)
    rw [h]; decide
  · have h := claim_C6 "   ".data (by decide)
    rw [h]; decide

/-- Proves claim C7: a marker whose content before the next marker is
whitespace-only contributes no segment, so the parse of the text equals the
parse starting at the next marker (the unconditional equality holds on the
marker-derived segment lists; the equality of the full parses holds whenever
some segment survives, so that the default fallback is not taken). -/
theorem claim_C7 : ∀ s w rest : List Char,
    (∀ x ∈ s, x ≠ rbrace) → lbrace ∉ w → (∀ c ∈ w, c.isWhitespace = true) →
    segsOf (lbrace :: (s ++ rbrace :: (w ++ lbrace :: rest))) =
      segsOf (lbrace :: rest) ∧
    (segsOf (lbrace :: rest) ≠ [] →
      parse_style_segments (lbrace :: (s ++ rbrace :: (w ++ lbrace :: rest))) =
        parse_style_segments (lbrace :: rest)) := by
  intro s w rest hs hw hww
  have hseg : segsOf (lbrace :: (s ++ rbrace :: (w ++ lbrace :: rest))) =
      segsOf (lbrace :: rest) := by
    unfold segsOf
    have hshape : (lbrace :: (s ++ rbrace :: (w ++ lbrace :: rest))) ++ [lbrace] =
        lbrace :: (s ++ rbrace :: (w ++ lbrace :: (rest ++ [lbrace]))) := by simp
    rw [hshape, findMatches_marker_step s w (rest ++ [lbrace]) hs hw]
    rw [List.filterMap_cons]
    have hw0 : pyStrip w = [] := pyStrip_of_all_ws hww
    simp [hw0]
  refine ⟨hseg, fun hne => ?_⟩
  unfold parse_style_segments
  rw [hseg]
  cases h : segsOf (lbrace :: rest) with
  | nil => exact absurd h hne
  | cons a b => rfl

/-- The spec example for claim C7: the empty-content marker A is dropped and
only the B segment remains. -/
theorem claim_C7_witness :
    parse_style_segments "\x7bA\x7d\x7bB\x7d text".data =
      [("B".data, "text".data)] := by
  have h := claim_C7 "A".data [] "B\x7d text".data (by decide) (by decide) (by decide)
  have e : "\x7bA\x7d\x7bB\x7d text".data =
      lbrace :: ("A".data ++ rbrace :: ([] ++ lbrace :: "B\x7d text".data)) := by decide
  rw [e, h.2 (by decide)]
  decide

/-- Refutes claim C8 as stated: the input has markers A and B, yet the text
before the first marker is not discarded; since both marker contents are
empty the fallback branch fires and the whole input, prefix included, is
returned as a default segment. -/
theorem claim_C8_counterexample :
    hasMarker "xyz \x7bA\x7d\x7bB\x7d".data = true ∧
    parse_style_segments "xyz \x7bA\x7d\x7bB\x7d".data =
      [("default".data, "xyz \x7bA\x7d\x7bB\x7d".data)] := by decide

/-- Proves the amended claim C8: when some marker-derived segment survives
filtering, any text before the first left brace is discarded; the parse
equals the parse of the remainder and no fallback default segment is
produced. -/
theorem claim_C8 : ∀ pre rest : List Char, lbrace ∉ pre → segsOf rest ≠ [] →
    parse_style_segments (pre ++ rest) = parse_style_segments rest ∧
    parse_style_segments (pre ++ rest) = segsOf rest := by
  intro pre rest hpre hne
  have hseg : segsOf (pre ++ rest) = segsOf rest := by
    unfold segsOf
    rw [List.append_assoc, findMatches_append_no_lbrace (rest ++ [lbrace]) hpre]
  unfold parse_style_segments
  rw [hseg]
  cases h : segsOf rest with
  | nil => exact absurd h hne
  | cons a b => exact ⟨rfl, rfl⟩

/-- Concrete instance of the amended claim C8: the prefix xyz is discarded
when the marker segment survives. -/
theorem claim_C8_witness :
    parse_style_segments "xyz \x7bA\x7d hi".data = [("A".data, "hi".data)] := by
  have h := claim_C8 "xyz ".data "\x7bA\x7d hi".data (by decide) (by decide)
  have e : "xyz \x7bA\x7d hi".data = "xyz ".data ++ "\x7bA\x7d hi".data := by decide
  rw [e, h.1]
  decide

theorem genLoop_eq (infer : SampleInfo → List Char → List Int × Nat)
    (trimFn : List Int → List Int) (rs : Bool) (m : StyleMap) :
    ∀ (segs : List (List Char × List Char)) (gen : List (List Int)) (r : Option Nat),
      genLoop infer trimFn rs m segs gen r =
        (gen ++ (resolvedSegs m segs).map (waveOf infer trimFn rs),
         match (resolvedSegs m segs).getLast? with
         | none => r
         | some x => some (infer x.1 x.2).2) := by
  intro segs
  induction segs with
  | nil => intro gen r; simp [genLoop, resolvedSegs]
  | cons seg rest ih =>
    intro gen r
    simp only [genLoop]
    cases hres : resolveStyle m seg.1 with
    | none =>
      have hskip : resolvedSegs m (seg :: rest) = resolvedSegs m rest := by
        simp [resolvedSegs, List.filterMap_cons, hres]
      dsimp only
      rw [ih, hskip]
    | some si =>
      have hcons : resolvedSegs m (seg :: rest) = (si, seg.2) :: resolvedSegs m rest := by
        simp [resolvedSegs, List.filterMap_cons, hres]
      dsimp only
      rw [ih, hcons]
      rw [List.map_cons]
      refine Prod.ext ?_ ?_
      · dsimp only
        rw [List.append_assoc, List.singleton_append]
        rfl
      · dsimp only
        cases hr : resolvedSegs m rest with
        | nil => simp
        | cons y ys =>
          rw [List.getLast?_cons_cons]
          cases hz : (y :: ys).getLast? with
          | none => simp at hz
          | some z => rfl

/-- Proves claim C3: multi-style synthesis resolves each segment through
resolveStyle (falling back to the default map entry when the style is not a
map key, the second conjunct), skips segments whose resolved style is absent
from the map (they do not appear among the resolved segments), calls the
engine once per remaining segment, concatenates the per-segment buffers in
segment order, and returns the none sentinel exactly when no segment
produced audio; the returned rate is the last inference's rate. -/
theorem claim_C3 : ∀ (infer : SampleInfo → List Char → List Int × Nat)
    (trimFn : List Int → List Int) (text : List Char) (m : StyleMap) (rs : Bool),
    (generate_multi_style_speech infer trimFn text m rs =
      match (resolvedSegs m (parse_style_segments text)).getLast? with
      | none => none
      | some x => some ((infer x.1 x.2).2,
          ((resolvedSegs m (parse_style_segments text)).map
            (waveOf infer trimFn rs)).flatten)) ∧
    ∀ s : List Char, alookup m s = none →
      resolveStyle m s = alookup m "default".data := by
  intro infer trimFn text m rs
  constructor
  · show (match genLoop infer trimFn rs m (parse_style_segments text) [] none with
        | ([], _) => none
        | (_ :: _, none) => none
        | (gen, some rate) => some (rate, gen.flatten)) = _
    rw [genLoop_eq]
    cases hr : resolvedSegs m (parse_style_segments text) with
    | nil => simp
    | cons y ys =>
      cases hz : (y :: ys).getLast? with
      | none => simp at hz
      | some z => simp [hz]
  · intro s h
    unfold resolveStyle
    rw [h]
    simp

/-- Concrete instance of claim C3: an unknown style falls back to the
default entry, and a one-segment text synthesizes to that engine output. -/
theorem claim_C3_witness :
    resolveStyle [("default".data, ⟨"p".data, "t".data⟩)] "X".data =
      alookup [("default".data, ⟨"p".data, "t".data⟩)] "default".data ∧
    generate_multi_style_speech (fun _ _ => ([1], 7)) (fun l => l)
      "\x7bX\x7d hi".data [("default".data, ⟨"p".data, "t".data⟩)] false =
      some (7, [1]) := by
  have h := claim_C3 (fun _ _ => ([1], 7)) (fun l => l) "\x7bX\x7d hi".data
    [("default".data, ⟨"p".data, "t".data⟩)] false
  exact ⟨h.2 "X".data (by decide), h.1.trans (by decide)⟩

theorem alookup_aset {α β : Type} [DecidableEq α] :
    ∀ (l : List (α × β)) (k : α) (v : β) (k' : α),
      alookup (aset l k v) k' = if k = k' then some v else alookup l k' := by
  intro l k v
  induction l with
  | nil =>
    intro k'
    simp [aset, alookup]
  | cons e t ih =>
    intro k'
    obtain ⟨ek, ev⟩ := e
    by_cases hek : ek = k
    · subst hek
      by_cases hk : ek = k'
      · simp [aset, alookup, hk]
      · simp [aset, alookup, hk]
    · by_cases hk : ek = k'
      · subst hk
        simp [aset, alookup, hek, Ne.symm hek]
      · simp [aset, alookup, hek, hk, ih]

theorem mem_aset {α β : Type} [DecidableEq α] :
    ∀ (l : List (α × β)) (k : α) (v : β) (x : α × β),
      x ∈ aset l k v → x ∈ l ∨ x = (k, v) := by
  intro l k v
  induction l with
  | nil =>
    intro x hx
    simp [aset] at hx
    exact Or.inr hx
  | cons e t ih =>
    intro x hx
    obtain ⟨ek, ev⟩ := e
    by_cases hek : ek = k
    · rw [aset, if_pos hek] at hx
      rcases List.mem_cons.mp hx with hx | hx
      · exact Or.inr hx
      · exact Or.inl (List.mem_cons.mpr (Or.inr hx))
    · rw [aset, if_neg hek] at hx
      rcases List.mem_cons.mp hx with hx | hx
      · exact Or.inl (List.mem_cons.mpr (Or.inl hx))
      · rcases ih x hx with hx | hx
        · exact Or.inl (List.mem_cons.mpr (Or.inr hx))
        · exact Or.inr hx

theorem filter_aset {α β : Type} [DecidableEq α] :
    ∀ (l : List (α × β)) (k : α) (v : β),
      (l.filter fun e => decide (e.1 = k)).length ≤ 1 →
      (aset l k v).filter (fun e => decide (e.1 = k)) = [(k, v)] := by
  intro l k v
  induction l with
  | nil => intro _; simp [aset, List.filter]
  | cons e t ih =>
    intro h
    obtain ⟨ek, ev⟩ := e
    by_cases hek : ek = k
    · subst hek
      rw [aset, if_pos rfl]
      rw [List.filter_cons] at h ⊢
      simp only [decide_eq_true_eq] at h ⊢
      rw [if_pos trivial] at h ⊢
      have h0 : List.filter (fun e => decide (e.1 = ek)) t = [] := by
        rw [← List.length_eq_zero]
        simp only [List.length_cons] at h
        omega
      rw [h0]
    · rw [aset, if_neg hek]
      rw [List.filter_cons] at h ⊢
      simp only [decide_eq_true_eq] at h ⊢
      rw [if_neg hek] at h ⊢
      exact ih h

theorem FS.mem_mkdir_self (fs : FS) (p : List Char) : p ∈ (fs.mkdir p).dirs := by
  by_cases h : p ∈ fs.dirs <;> simp [FS.mkdir, h]

theorem FS.mem_mkdir_of_mem {fs : FS} {q : List Char} (h : q ∈ fs.dirs)
    (p : List Char) : q ∈ (fs.mkdir p).dirs := by
  by_cases hp : p ∈ fs.dirs <;> simp [FS.mkdir, hp, h]

theorem FS.read_write_self (fs : FS) (p : List Char) (d : FileData) :
    (fs.write p d).read p = some d := by
  simp [FS.read, FS.write, alookup_aset]

theorem FS.read_write_ne {p q : List Char} (h : ¬p = q) (fs : FS) (d : FileData) :
    (fs.write p d).read q = fs.read q := by
  simp [FS.read, FS.write, alookup_aset, h]

/-- Proves claim C2: create_profile on a taken name returns the
already-exists result and leaves the whole state (profile map, manifests,
filesystem) untouched; on a fresh name it reports success, registers a
profile with empty sample and style maps leaving other profiles alone,
creates the three directories, and writes the fresh manifest. -/
theorem claim_C2 : ∀ (st : Manager) (name description now : List Char),
    ((alookup st.profiles name).isSome →
      create_profile st name description now = (st, .profileExists name)) ∧
    (alookup st.profiles name = none →
      (create_profile st name description now).2 = .profileCreated name ∧
      alookup (create_profile st name description now).1.profiles name =
        some { name := name, description := description, created_at := now,
               samples := [], styles := [], outputs := none } ∧
      (∀ n, ¬n = name →
        alookup (create_profile st name description now).1.profiles n =
          alookup st.profiles n) ∧
      pathJoin st.profiles_dir name ∈
        (create_profile st name description now).1.fs.dirs ∧
      pathJoin (pathJoin st.profiles_dir name) "samples".data ∈
        (create_profile st name description now).1.fs.dirs ∧
      pathJoin (pathJoin st.profiles_dir name) "outputs".data ∈
        (create_profile st name description now).1.fs.dirs ∧
      FS.read (create_profile st name description now).1.fs
          (manifestPath st.profiles_dir name) =
        some (.manifest { name := name, description := description,
                          created_at := now, samples := [], styles := [],
                          outputs := none })) := by
  intro st name description now
  constructor
  · intro h
    unfold create_profile
    rw [if_pos h]
  · intro h
    have hns : ¬((alookup st.profiles name).isSome = true) := by simp [h]
    unfold create_profile
    rw [if_neg hns]
    dsimp only
    refine ⟨rfl, ?_, ?_, ?_, ?_, ?_, ?_⟩
    · rw [alookup_aset, if_pos rfl]
    · intro n hn
      rw [alookup_aset, if_neg fun he => hn he.symm]
    · exact FS.mem_mkdir_of_mem (FS.mem_mkdir_of_mem (FS.mem_mkdir_self st.fs _) _) _
    · exact FS.mem_mkdir_of_mem (FS.mem_mkdir_self _ _) _
    · exact FS.mem_mkdir_self _ _
    · exact FS.read_write_self _ _ _

/-- Concrete instance of claim C2 on the store fixture: re-creating the
existing profile p changes nothing, while creating q succeeds with empty
maps. -/
theorem claim_C2_witness :
    create_profile demoManager "p".data "d2".data "t1".data =
      (demoManager, .profileExists "p".data) ∧
    (create_profile demoManager "q".data "d2".data "t1".data).2 =
      .profileCreated "q".data ∧
    alookup (create_profile demoManager "q".data "d2".data "t1".data).1.profiles
        "q".data =
      some { name := "q".data, description := "d2".data, created_at := "t1".data,
             samples := [], styles := [], outputs := none } := by
  refine ⟨(claim_C2 demoManager "p".data "d2".data "t1".data).1 (by decide),
    ((claim_C2 demoManager "q".data "d2".data "t1".data).2 (by decide)).1,
    (((claim_C2 demoManager "q".data "d2".data "t1".data).2 (by decide)).2).1⟩

/-- Proves claim C5: add_style on an unknown profile returns the
profile-not-found result with the state unchanged, and on a known profile
with an unknown sample name returns the sample-not-found result with the
state unchanged (so neither the styles map nor any manifest is mutated). -/
theorem claim_C5 : ∀ (st : Manager) (pn styn sn now : List Char),
    (alookup st.profiles pn = none →
      add_style st pn styn sn now = (st, .profileNotFound pn)) ∧
    (∀ prof, alookup st.profiles pn = some prof →
      alookup prof.samples sn = none →
      add_style st pn styn sn now = (st, .sampleNotFound sn pn)) := by
  intro st pn styn sn now
  constructor
  · intro h
    unfold add_style
    rw [h]
  · intro prof h hs
    unfold add_style
    rw [h]
    dsimp only
    rw [hs]
    rfl

/-- Concrete instance of claim C5 on the store fixture: an unknown profile
and an unknown sample both leave the store exactly as it was. -/
theorem claim_C5_witness :
    add_style demoManager "q".data "sty".data "s".data "t1".data =
      (demoManager, .profileNotFound "q".data) ∧
    add_style demoManager "p".data "sty".data "zzz".data "t1".data =
      (demoManager, .sampleNotFound "zzz".data "p".data) := by
  refine ⟨(claim_C5 demoManager "q".data "sty".data "s".data "t1".data).1 (by decide),
    (claim_C5 demoManager "p".data "sty".data "zzz".data "t1".data).2 demoProfile
      (by decide) (by decide)⟩

/-- Proves claim C9: the getters are pure total lookups that return the
empty answer whenever the profile or the inner key is missing, and the
listing operations return the empty sequence for an unknown profile. -/
theorem claim_C9 : ∀ (st : Manager) (pn key : List Char),
    (alookup st.profiles pn = none →
      get_sample_path st pn key = none ∧
      get_transcription st pn key = [] ∧
      get_style_sample st pn key = none ∧
      list_samples st pn = [] ∧
      list_styles st pn = []) ∧
    (∀ prof, alookup st.profiles pn = some prof →
      (alookup prof.samples key = none →
        get_sample_path st pn key = none ∧ get_transcription st pn key = []) ∧
      (alookup prof.styles key = none → get_style_sample st pn key = none)) := by
  intro st pn key
  constructor
  · intro h
    unfold get_sample_path get_transcription get_style_sample list_samples list_styles
    rw [h]
    exact ⟨rfl, rfl, rfl, rfl, rfl⟩
  · intro prof h
    constructor
    · intro hs
      unfold get_sample_path get_transcription
      rw [h]
      dsimp only
      rw [hs]
      exact ⟨rfl, rfl⟩
    · intro hs
      unfold get_style_sample
      rw [h]
      dsimp only
      rw [hs]

/-- Concrete instance of claim C9 on the store fixture: lookups about the
unknown profile q, and about keys missing from profile p, return the empty
answers. -/
theorem claim_C9_witness :
    (get_sample_path demoManager "q".data "s".data = none ∧
      get_transcription demoManager "q".data "s".data = [] ∧
      get_style_sample demoManager "q".data "s".data = none ∧
      list_samples demoManager "q".data = [] ∧
      list_styles demoManager "q".data = []) ∧
    get_sample_path demoManager "p".data "zzz".data = none ∧
    get_style_sample demoManager "p".data "sty".data = none := by
  refine ⟨(claim_C9 demoManager "q".data "s".data).1 (by decide),
    (((claim_C9 demoManager "p".data "zzz".data).2 demoProfile (by decide)).1
      (by decide)).1,
    ((claim_C9 demoManager "p".data "sty".data).2 demoProfile (by decide)).2
      (by decide)⟩

theorem alookup_mem {α β : Type} [DecidableEq α] :
    ∀ {l : List (α × β)} {k : α} {v : β}, alookup l k = some v → (k, v) ∈ l := by
  intro l
  induction l with
  | nil => intro k v h; simp [alookup] at h
  | cons e t ih =>
    intro k v h
    obtain ⟨ek, ev⟩ := e
    simp only [alookup] at h
    by_cases hek : ek = k
    · rw [if_pos hek] at h
      have hv := Option.some.inj h
      subst hek; subst hv
      exact List.mem_cons_self _ _
    · rw [if_neg hek] at h
      exact List.mem_cons.mpr (Or.inr (ih h))

theorem all_stylesOK_aset {l : List (List Char × Profile)}
    (h : l.all (fun e => stylesOK e.2) = true) {k : List Char} {p : Profile}
    (hp : stylesOK p = true) :
    (aset l k p).all (fun e => stylesOK e.2) = true := by
  rw [List.all_eq_true] at h ⊢
  intro x hx
  rcases mem_aset l k p x hx with hx | hx
  · exact h x hx
  · rw [hx]; exact hp

theorem stylesOK_add_sample {prof : Profile} (h : stylesOK prof = true)
    (sn : List Char) (entry : Sample) :
    stylesOK { prof with samples := aset prof.samples sn entry } = true := by
  unfold stylesOK at h ⊢
  dsimp only
  rw [List.all_eq_true] at h ⊢
  intro x hx
  have hx' := h x hx
  rw [alookup_aset]
  by_cases he : sn = x.2.sample
  · rw [if_pos he]; rfl
  · rw [if_neg he]; exact hx'

theorem stylesOK_add_style {prof : Profile} (h : stylesOK prof = true)
    {sn : List Char} (hs : (alookup prof.samples sn).isSome = true)
    (styn now : List Char) :
    stylesOK { prof with
      styles := aset prof.styles styn { sample := sn, added_at := now } } = true := by
  unfold stylesOK at h ⊢
  dsimp only
  rw [List.all_eq_true] at h ⊢
  intro x hx
  rcases mem_aset _ _ _ x hx with hx | hx
  · exact h x hx
  · rw [hx]; exact hs

/-- Proves claim C10 (referential integrity of styles): if every style of
every profile names an existing sample of the same profile, then each of the
four mutating operations preserves that invariant; create_profile adds a
profile with no styles, add_sample only adds or replaces sample keys,
add_style checks sample existence before linking, and save_output touches
only outputs. -/
theorem claim_C10 : ∀ st : Manager, storeInv st = true →
    (∀ name description now,
      storeInv (create_profile st name description now).1 = true) ∧
    (∀ pn sn ap tr wave sr now,
      storeInv (add_sample st pn sn ap tr wave sr now).1 = true) ∧
    (∀ pn styn sn now,
      storeInv (add_style st pn styn sn now).1 = true) ∧
    (∀ pn oname a sr t s tf tm,
      storeInv (save_output st pn oname a sr t s tf tm).1 = true) := by
  intro st hinv
  refine ⟨?_, ?_, ?_, ?_⟩
  · intro name description now
    unfold create_profile
    by_cases h : (alookup st.profiles name).isSome = true
    · rw [if_pos h]; exact hinv
    · rw [if_neg h]
      dsimp only
      unfold storeInv at hinv ⊢
      dsimp only
      exact all_stylesOK_aset hinv rfl
  · intro pn sn ap tr wave sr now
    unfold add_sample
    cases hp : alookup st.profiles pn with
    | none => exact hinv
    | some prof =>
      dsimp only
      unfold storeInv at hinv ⊢
      dsimp only
      have hprof : stylesOK prof = true :=
        List.all_eq_true.mp hinv _ (alookup_mem hp)
      exact all_stylesOK_aset hinv (stylesOK_add_sample hprof _ _)
  · intro pn styn sn now
    unfold add_style
    cases hp : alookup st.profiles pn with
    | none => exact hinv
    | some prof =>
      dsimp only
      by_cases hs : (alookup prof.samples sn).isNone = true
      · rw [if_pos hs]; exact hinv
      · rw [if_neg hs]
        dsimp only
        unfold storeInv at hinv ⊢
        dsimp only
        have hprof : stylesOK prof = true :=
          List.all_eq_true.mp hinv _ (alookup_mem hp)
        have hsome : (alookup prof.samples sn).isSome = true := by
          cases ho : alookup prof.samples sn with
          | none => exact absurd (by rw [ho]; rfl) hs
          | some v => rfl
        exact all_stylesOK_aset hinv (stylesOK_add_style hprof hsome styn now)
  · intro pn oname a sr t s tf tm
    unfold save_output
    cases hp : alookup st.profiles pn with
    | none => exact hinv
    | some prof =>
      dsimp only
      unfold storeInv at hinv ⊢
      dsimp only
      have hprof : stylesOK prof = true :=
        List.all_eq_true.mp hinv _ (alookup_mem hp)
      exact all_stylesOK_aset hinv hprof

/-- Concrete instance of claim C10: the fixture store satisfies the
invariant and each operation keeps it. -/
theorem claim_C10_witness :
    storeInv demoManager = true ∧
    storeInv (create_profile demoManager "q".data "d".data "t1".data).1 = true ∧
    storeInv (add_sample demoManager "p".data "s2".data "in.wav".data "tr".data
      [2] 8000 "t1".data).1 = true ∧
    storeInv (add_style demoManager "p".data "sty".data "s".data "t1".data).1 = true ∧
    storeInv (save_output demoManager "p".data "out".data [1] 24000 "txt".data
      "sty".data "ts".data "t1".data).1 = true := by
  have h := claim_C10 demoManager (by decide)
  exact ⟨by decide, h.1 _ _ _, h.2.1 _ _ _ _ _ _ _, h.2.2.1 _ _ _ _,
    h.2.2.2 _ _ _ _ _ _ _ _⟩

theorem pathJoin_inj {a b c : List Char} (h : pathJoin a b = pathJoin a c) :
    b = c := by
  unfold pathJoin at h
  have h2 := List.append_cancel_left h
  injection h2

theorem outputFilePath_ne_of_tf {pd pn oname tf1 tf2 : List Char}
    (h : ¬tf1 = tf2) :
    ¬outputFilePath pd pn oname tf1 = outputFilePath pd pn oname tf2 := by
  intro he
  unfold outputFilePath at he
  have h1 := pathJoin_inj he
  have h2 := List.append_cancel_left h1
  injection h2 with _ h3
  exact h (List.append_cancel_right h3)

theorem outputFilePath_ne_manifestPath (pd pn oname tf : List Char) :
    ¬outputFilePath pd pn oname tf = manifestPath pd pn := by
  intro he
  unfold outputFilePath manifestPath pathJoin at he
  rw [List.append_assoc] at he
  have h2 := List.append_cancel_left he
  rw [List.cons_append] at h2
  injection h2 with _ h3
  have h4 : ('o' :: "utputs".data) ++
      '/' :: (replaceSpaces oname ++ '_' :: (tf ++ ".wav".data)) =
      'p' :: "rofile.json".data := h3
  rw [List.cons_append] at h4
  injection h4 with h5 _
  exact absurd h5 (by decide)

theorem save_output_some {st : Manager} {pn : List Char} {prof : Profile}
    (hp : alookup st.profiles pn = some prof) (oname : List Char)
    (a : List Int) (sr : Nat) (t s tf tm : List Char) :
    save_output st pn oname a sr t s tf tm =
      (Manager.mk st.profiles_dir st.current_profile
        (aset st.profiles pn
          (withOutput prof oname (outputFilePath st.profiles_dir pn oname tf) t s tm))
        ((st.fs.write (outputFilePath st.profiles_dir pn oname tf) (.audio a sr)).write
          (manifestPath st.profiles_dir pn)
          (.manifest
            (withOutput prof oname (outputFilePath st.profiles_dir pn oname tf) t s tm))),
       .savedPath (outputFilePath st.profiles_dir pn oname tf)) := by
  unfold save_output
  rw [hp]

/-- Proves the amended claim C1: two successful save_output calls on the
same profile under the same output name whose filename timestamps differ
write two distinct files, both still on disk afterwards with their own audio
contents, and the manifest afterwards holds exactly one entry under that
output name, carrying the second save's path, text, style, and metadata
timestamp.  The hypothesis that the starting state has at most one manifest
entry under the name holds for every store built by the manager, which never
duplicates a dict key. -/
theorem claim_C1 : ∀ (st : Manager) (pn oname : List Char)
    (a1 : List Int) (sr1 : Nat) (t1 s1 tf1 tm1 : List Char)
    (a2 : List Int) (sr2 : Nat) (t2 s2 tf2 tm2 : List Char),
    (alookup st.profiles pn).isSome = true →
    ¬tf1 = tf2 →
    ((outputsOf st pn).filter fun e => decide (e.1 = oname)).length ≤ 1 →
    ∃ p1 p2 : List Char,
      ¬p1 = p2 ∧
      (save_output st pn oname a1 sr1 t1 s1 tf1 tm1).2 = .savedPath p1 ∧
      (save_output (save_output st pn oname a1 sr1 t1 s1 tf1 tm1).1
        pn oname a2 sr2 t2 s2 tf2 tm2).2 = .savedPath p2 ∧
      FS.read (save_output (save_output st pn oname a1 sr1 t1 s1 tf1 tm1).1
        pn oname a2 sr2 t2 s2 tf2 tm2).1.fs p1 = some (.audio a1 sr1) ∧
      FS.read (save_output (save_output st pn oname a1 sr1 t1 s1 tf1 tm1).1
        pn oname a2 sr2 t2 s2 tf2 tm2).1.fs p2 = some (.audio a2 sr2) ∧
      (outputsOf (save_output (save_output st pn oname a1 sr1 t1 s1 tf1 tm1).1
          pn oname a2 sr2 t2 s2 tf2 tm2).1 pn).filter
          (fun e => decide (e.1 = oname)) =
        [(oname, { path := p2, text := t2, style := s2, created_at := tm2 })] := by
  intro st pn oname a1 sr1 t1 s1 tf1 tm1 a2 sr2 t2 s2 tf2 tm2 hps htf hcount
  obtain ⟨prof, hp⟩ := Option.isSome_iff_exists.mp hps
  have e1 := save_output_some hp oname a1 sr1 t1 s1 tf1 tm1
  have hp1 : alookup (save_output st pn oname a1 sr1 t1 s1 tf1 tm1).1.profiles pn =
      some (withOutput prof oname (outputFilePath st.profiles_dir pn oname tf1)
        t1 s1 tm1) := by
    rw [e1]
    dsimp only
    rw [alookup_aset, if_pos rfl]
  have e2 := save_output_some hp1 oname a2 sr2 t2 s2 tf2 tm2
  rw [e1] at e2
  dsimp only at e2
  have hne : ¬outputFilePath st.profiles_dir pn oname tf1 =
      outputFilePath st.profiles_dir pn oname tf2 := outputFilePath_ne_of_tf htf
  have hm1 : ¬manifestPath st.profiles_dir pn =
      outputFilePath st.profiles_dir pn oname tf1 :=
    fun he => outputFilePath_ne_manifestPath _ _ _ _ he.symm
  have hm2 : ¬manifestPath st.profiles_dir pn =
      outputFilePath st.profiles_dir pn oname tf2 :=
    fun he => outputFilePath_ne_manifestPath _ _ _ _ he.symm
  have hne21 : ¬outputFilePath st.profiles_dir pn oname tf2 =
      outputFilePath st.profiles_dir pn oname tf1 := fun he => hne he.symm
  refine ⟨outputFilePath st.profiles_dir pn oname tf1,
    outputFilePath st.profiles_dir pn oname tf2, hne, ?_, ?_, ?_, ?_, ?_⟩
  · rw [e1]
  · rw [e1]
    dsimp only
    rw [e2]
  · rw [e1]
    dsimp only
    rw [e2]
    dsimp only
    rw [FS.read_write_ne hm1, FS.read_write_ne hne21, FS.read_write_ne hm1]
    exact FS.read_write_self _ _ _
  · rw [e1]
    dsimp only
    rw [e2]
    dsimp only
    rw [FS.read_write_ne hm2]
    exact FS.read_write_self _ _ _
  · rw [e1]
    dsimp only
    rw [e2]
    unfold outputsOf
    dsimp only
    rw [alookup_aset, if_pos rfl]
    have hc0 : ((outputsDict prof).filter fun e => decide (e.1 = oname)).length ≤ 1 := by
      have ho : outputsOf st pn = outputsDict prof := by
        unfold outputsOf
        rw [hp]
      rwa [ho] at hcount
    have hf1 := filter_aset (outputsDict prof) oname
      { path := outputFilePath st.profiles_dir pn oname tf1, text := t1,
        style := s1, created_at := tm1 } hc0
    have hc1 : ((aset (outputsDict prof) oname
        { path := outputFilePath st.profiles_dir pn oname tf1, text := t1,
          style := s1, created_at := tm1 }).filter
        fun e => decide (e.1 = oname)).length ≤ 1 := by
      rw [hf1]
      simp
    have hf2 := filter_aset _ oname
      { path := outputFilePath st.profiles_dir pn oname tf2, text := t2,
        style := s2, created_at := tm2 } hc1
    unfold withOutput outputsDict
    dsimp only
    exact hf2

/-- Refutes claim C1 as stated: when the two saves fall in the same strftime
second the derived filenames coincide, so the two successful calls do not
produce distinct files; the second write overwrites the first. -/
theorem claim_C1_counterexample :
    (save_output demoManager "p".data "out".data [1] 24000 "txt".data
      "sty".data "20240101_120000".data "t1".data).2 =
      .savedPath
        "voice_profiles/p/outputs/out_20240101_120000.wav".data ∧
    (save_output (save_output demoManager "p".data "out".data [1] 24000
        "txt".data "sty".data "20240101_120000".data "t1".data).1
      "p".data "out".data [2] 24000 "txt2".data "sty".data
      "20240101_120000".data "t2".data).2 =
      .savedPath
        "voice_profiles/p/outputs/out_20240101_120000.wav".data ∧
    FS.read (save_output (save_output demoManager "p".data "out".data [1] 24000
        "txt".data "sty".data "20240101_120000".data "t1".data).1
      "p".data "out".data [2] 24000 "txt2".data "sty".data
      "20240101_120000".data "t2".data).1.fs
      "voice_profiles/p/outputs/out_20240101_120000.wav".data =
      some (.audio [2] 24000) := by
  refine ⟨by decide, by decide, by decide⟩

/-- Concrete instance of the amended claim C1 on the store fixture, with two
distinct filename timestamps. -/
theorem claim_C1_witness :
    ∃ p1 p2 : List Char,
      ¬p1 = p2 ∧
      (save_output demoManager "p".data "out".data [1] 24000 "txt".data
        "sty".data "ts1".data "t1".data).2 = .savedPath p1 ∧
      (save_output (save_output demoManager "p".data "out".data [1] 24000
          "txt".data "sty".data "ts1".data "t1".data).1
        "p".data "out".data [2] 24000 "txt2".data "sty".data "ts2".data
        "t2".data).2 = .savedPath p2 ∧
      FS.read (save_output (save_output demoManager "p".data "out".data [1] 24000
          "txt".data "sty".data "ts1".data "t1".data).1
        "p".data "out".data [2] 24000 "txt2".data "sty".data "ts2".data
        "t2".data).1.fs p1 = some (.audio [1] 24000) ∧
      FS.read (save_output (save_output demoManager "p".data "out".data [1] 24000
          "txt".data "sty".data "ts1".data "t1".data).1
        "p".data "out".data [2] 24000 "txt2".data "sty".data "ts2".data
        "t2".data).1.fs p2 = some (.audio [2] 24000) ∧
      (outputsOf (save_output (save_output demoManager "p".data "out".data [1]
          24000 "txt".data "sty".data "ts1".data "t1".data).1
          "p".data "out".data [2] 24000 "txt2".data "sty".data "ts2".data
          "t2".data).1 "p".data).filter (fun e => decide (e.1 = "out".data)) =
        [("out".data, { path := p2, text := "txt2".data, style := "sty".data,
                        created_at := "t2".data })] :=
  claim_C1 demoManager "p".data "out".data [1] 24000 "txt".data "sty".data
    "ts1".data "t1".data [2] 24000 "txt2".data "sty".data "ts2".data "t2".data
    (by decide) (by decide) (by decide)
